import Mathlib

/-!
Verification of the go-gather URI classification, git URL processing,
protocol dispatch, pinned-URL rewriting and directory-copy error
aggregation logic, as a shallow embedding in Lean.

Strings are modelled as lists of characters (`Str`).  Percent-escaping
of URLs is not modelled (none of the properties below involve escaped
characters), and the unescaped-dot / `.*` wildcards of the Go regular
expressions are taken to match any character (Go RE2 `.` excludes the
newline; no property here involves newlines); otherwise the embedded
functions follow the Go source
(`common.go`, `gather/git/git.go`, the dispatcher and the file
gatherer) together with the behaviour of the standard library
functions (`net/url`, `strings`, `path/filepath`) and the
`whilp/git-urls` package they call.
-/

deriving instance DecidableEq for Except

abbrev Str := List Char

def strL (s : String) : Str := s.data

/-! ## Basic string operations (Go `strings` package) -/

/-- Boolean list-prefix test: does `p` occur at the start of `l`? -/
def hasPfx : Str → Str → Bool
  | [], _ => true
  | _ :: _, [] => false
  | p :: ps, c :: cs => p = c && hasPfx ps cs

/-- Go `strings.HasSuffix`. -/
def endsWithL (l suf : Str) : Bool := hasPfx suf.reverse l.reverse

/-- Go `strings.Contains` (substring containment). -/
def containsSub : Str → Str → Bool
  | [], pat => pat.isEmpty
  | c :: cs, pat => hasPfx pat (c :: cs) || containsSub cs pat

def containsChar (l : Str) (c : Char) : Bool := l.any (· = c)

/-- Split `l` at the first occurrence of the (non-empty) separator `sep`:
returns the part before and the part after the separator, if any. -/
def firstCut (sep : Str) : Str → Option (Str × Str)
  | [] => none
  | c :: cs =>
    if hasPfx sep (c :: cs) then some ([], (c :: cs).drop sep.length)
    else match firstCut sep cs with
      | none => none
      | some (pre, post) => some (c :: pre, post)

/-- Go `strings.Split` on a non-empty separator (fuel-driven; the fuel
`l.length + 1` always suffices because each step consumes at least one
character). -/
def splitOnAuxGo (sep : Str) : Nat → Str → List Str
  | 0, rest => [rest]
  | fuel + 1, rest =>
    match firstCut sep rest with
    | none => [rest]
    | some (pre, post) => pre :: splitOnAuxGo sep fuel post

def splitOnGo (l sep : Str) : List Str := splitOnAuxGo sep (l.length + 1) l

/-- Go `strings.SplitN(l, sep, 2)`: split only at the first occurrence. -/
def splitN2 (l sep : Str) : Str × Str :=
  match firstCut sep l with
  | none => (l, [])
  | some (pre, post) => (pre, post)

/-- Cut at the first occurrence of character `c`; the separator is dropped.
Returns the part before and, when `c` occurs, the part after. -/
def cutChar (c : Char) : Str → Str × Option Str
  | [] => ([], none)
  | d :: ds =>
    if d = c then ([], some ds)
    else
      let (pre, post) := cutChar c ds
      (d :: pre, post)

def toLowerL (l : Str) : Str := l.map Char.toLower

def intercalateL (sep : Str) : List Str → Str
  | [] => []
  | [x] => x
  | x :: xs => x ++ sep ++ intercalateL sep xs

/-! ## Character classes of the Go regular expressions in `common.go` -/

/-- `[\w.\-]` in Go RE2: word characters (alphanumeric or underscore),
dot and hyphen. -/
def isWordDotDash (c : Char) : Bool :=
  c.isAlpha || c.isDigit || c = '_' || c = '.' || c = '-'

/-- `[\w\-]`: word characters and hyphen (no dot). -/
def isWordDash (c : Char) : Bool :=
  c.isAlpha || c.isDigit || c = '_' || c = '-'

/-- `[a-zA-Z0-9-._~]`, the character class of the `whilp/git-urls`
SCP-syntax regular expression. -/
def isScpChar (c : Char) : Bool :=
  c.isAlpha || c.isDigit || c = '-' || c = '.' || c = '_' || c = '~'

def isLowerDigitDash (c : Char) : Bool :=
  ('a' ≤ c && c ≤ 'z') || c.isDigit || c = '-'

/-! ## The classifier regular expressions of `common.go`

Each Go regular expression is rendered as a Boolean matcher with the
same language.  `(\.git)?` groups that follow a `[\w.\-]+` block are
absorbed into the block (their characters already lie in the class). -/

/-- `t` consists of exactly `n` non-empty `/`-separated segments whose
characters all lie in `[\w.\-]`. -/
def segsW (t : Str) (n : Nat) : Bool :=
  let parts := splitOnGo t (strL "/")
  parts.length = n && parts.all (fun p => !p.isEmpty && p.all isWordDotDash)

/-- The Git-URI regular expression of `ClassifyURI`:
`^(git@h:o/r(\.git)?|https?://h/o/r(\.git)?|git://h/o/r(\.git)?|a/b/c//.*|file://.*\.git|a/b(\.git)?)$`
over the `[\w.\-]` class. -/
def gitURIMatch (s : Str) : Bool :=
  -- git@host:org/repo(.git)?
  (hasPfx (strL "git@") s &&
    (match firstCut (strL ":") (s.drop 4) with
     | some (host, rest) => !host.isEmpty && host.all isWordDotDash && segsW rest 2
     | none => false)) ||
  -- https?://host/org/repo(.git)?
  (hasPfx (strL "http://") s && segsW (s.drop 7) 3) ||
  (hasPfx (strL "https://") s && segsW (s.drop 8) 3) ||
  -- git://host/org/repo(.git)?
  (hasPfx (strL "git://") s && segsW (s.drop 6) 3) ||
  -- a/b/c//rest
  (match firstCut (strL "//") s with
   | some (pre, _) => segsW pre 3
   | none => false) ||
  -- file://….git
  (hasPfx (strL "file://") s && endsWithL s (strL ".git") && decide (11 ≤ s.length)) ||
  -- a/b(.git)?
  segsW s 2

/-- `[\w\-]+(\.[\w\-]+)+.*`: a run of `[\w\-]` characters, a dot, and at
least one further `[\w\-]` character. -/
def hostLabelMatch (r : Str) : Bool :=
  let run := r.takeWhile isWordDash
  let rest := r.drop run.length
  !run.isEmpty &&
    (match rest with
     | '.' :: d :: _ => isWordDash d
     | _ => false)

/-- The HTTP-URI regular expression `^((http://|https://)[\w\-]+(\.[\w\-]+)+.*)$`. -/
def httpURIMatch (s : Str) : Bool :=
  (hasPfx (strL "http://") s && hostLabelMatch (s.drop 7)) ||
  (hasPfx (strL "https://") s && hostLabelMatch (s.drop 8))

/-- The OCI-URI regular expression `^((oci://)[\w\-]+(\.[\w\-]+)+.*)$`. -/
def ociURIMatch (s : Str) : Bool :=
  hasPfx (strL "oci://") s && hostLabelMatch (s.drop 6)

/-- The file-path regular expression `^(\./|\../|/|[a-zA-Z]:\\|~\/|file://).*`.
Note that in `\../` only the first dot is escaped: it matches a dot,
any character, and a slash. -/
def filePathMatch (s : Str) : Bool :=
  match s with
  | '.' :: '/' :: _ => true
  | '.' :: _ :: '/' :: _ => true
  | '/' :: _ => true
  | a :: ':' :: '\\' :: _ => a.isAlpha
  | '~' :: '/' :: _ => true
  | _ => hasPfx (strL "file://") s

/-! ## The known-registry patterns of `containsOCIRegistry`

These are unanchored Go regular expressions whose unescaped dots match
any character. -/

/-- Does the dot-wildcard literal `pat` (each `'.'` matches any
character) occur at the head of `s`? -/
def dotPatAt : Str → Str → Bool
  | [], _ => true
  | _ :: _, [] => false
  | p :: ps, c :: cs => (p = '.' || p = c) && dotPatAt ps cs

/-- Unanchored search for a dot-wildcard literal. -/
def containsDotPat : Str → Str → Bool
  | s, pat =>
    match s with
    | [] => dotPatAt pat []
    | _ :: cs => dotPatAt pat s || containsDotPat cs pat

/-- Tail of the ECR pattern after the twelve digits:
`.dkr.ecr.[a-z0-9-]*.amazonaws.com` (leading unescaped dots are
wildcards). -/
def ecrTail (s : Str) : Bool :=
  match s with
  | _ :: 'd' :: 'k' :: 'r' :: _ :: 'e' :: 'c' :: 'r' :: _ :: rest =>
    -- [a-z0-9-]* then `.` then `amazonaws` then `.` then `com`
    (List.range (rest.length + 1)).any (fun n =>
      (rest.take n).all isLowerDigitDash &&
        dotPatAt (strL ".amazonaws.com") (rest.drop n))
  | _ => false

/-- `[0-9]{12}.dkr.ecr.[a-z0-9-]*.amazonaws.com` at the head of `s`. -/
def ecrAt (s : Str) : Bool :=
  (s.take 12).length = 12 && (s.take 12).all Char.isDigit && ecrTail (s.drop 12)

def ecrMatch : Str → Bool
  | [] => false
  | c :: cs => ecrAt (c :: cs) || ecrMatch cs

/-- `^quay.io` (anchored; the dot is a wildcard). -/
def quayMatch (s : Str) : Bool := dotPatAt (strL "quay.io") s

/-- `(?:::1|127\.0\.0\.1|(?i:localhost)):\d{1,5}` at the head of `s`
(the dots in `127.0.0.1` are escaped, hence literal). -/
def localRegistryAt (s : Str) : Bool :=
  (hasPfx (strL "::1") s &&
    (match s.drop 3 with
     | ':' :: d :: _ => d.isDigit
     | _ => false)) ||
  (hasPfx (strL "127.0.0.1") s &&
    (match s.drop 9 with
     | ':' :: d :: _ => d.isDigit
     | _ => false)) ||
  (hasPfx (strL "localhost") (toLowerL s) &&
    (match s.drop 9 with
     | ':' :: d :: _ => d.isDigit
     | _ => false))

def localRegistryMatch : Str → Bool
  | [] => false
  | c :: cs => localRegistryAt (c :: cs) || localRegistryMatch cs

/-- `containsOCIRegistry` from `common.go`. -/
def containsOCIRegistry (src : Str) : Bool :=
  containsDotPat src (strL "azurecr.io") ||
  containsDotPat src (strL "gcr.io") ||
  containsDotPat src (strL "registry.gitlab.com") ||
  containsDotPat src (strL "pkg.dev") ||
  ecrMatch src ||
  quayMatch src ||
  localRegistryMatch src

/-! ## `path/filepath` (Unix) and `ExpandTilde` -/

/-- One step of Go `filepath.Clean`'s segment processing: `out` is the
reversed stack of kept segments. -/
def cleanStep (rooted : Bool) (out : List Str) (seg : Str) : List Str :=
  if seg = [] || seg = strL "." then out
  else if seg = strL ".." then
    match out with
    | [] => if rooted then [] else [strL ".."]
    | top :: rest => if top = strL ".." then seg :: out else rest
  else seg :: out

/-- Go `filepath.Clean` for slash-separated paths. -/
def cleanGo (p : Str) : Str :=
  match p with
  | [] => strL "."
  | c :: _ =>
    let rooted := c = '/'
    let segs := splitOnGo p (strL "/")
    let out := (segs.foldl (cleanStep rooted) []).reverse
    let s := (if rooted then strL "/" else []) ++ intercalateL (strL "/") out
    if s = [] then strL "." else s

/-- Go `filepath.Join` of two elements. -/
def joinGo (a b : Str) : Str :=
  if a = [] && b = [] then []
  else if a = [] then cleanGo b
  else cleanGo (a ++ strL "/" ++ b)

/-- `ExpandTilde` from `common.go`.  The package-level `getHomeDir`
function reference is modelled by the `home` parameter; `none` models a
failing home-directory lookup (the path is returned unexpanded). -/
def ExpandTilde (home : Option Str) (path : Str) : Str :=
  if hasPfx (strL "~/") path then
    match home with
    | none => path
    | some h => joinGo h (path.drop 2)
  else path

/-! ## `net/url` model

`GoURL` mirrors Go's `url.URL` (percent-escaping is not modelled, so
`Path` and `EscapedPath` coincide and `User` is kept as the raw
userinfo text). -/

structure GoURL where
  scheme : Str := []
  opq : Str := []
  user : Option Str := none
  host : Str := []
  path : Str := []
  forceQuery : Bool := false
  rawQuery : Str := []
  fragment : Str := []
deriving DecidableEq, Repr

/-- Go `url.getScheme`: returns the scheme (possibly empty, meaning
"no scheme") and the remainder. -/
def getSchemeAux (orig : Str) : Str → Str → Except Str (Str × Str)
  | _, [] => .ok ([], orig)
  | acc, c :: rest =>
    if c.isAlpha then getSchemeAux orig (acc ++ [c]) rest
    else if c.isDigit || c = '+' || c = '-' || c = '.' then
      if acc = [] then .ok ([], orig) else getSchemeAux orig (acc ++ [c]) rest
    else if c = ':' then
      if acc = [] then .error (strL "missing protocol scheme")
      else .ok (acc, rest)
    else .ok ([], orig)

def getSchemeGo (s : Str) : Except Str (Str × Str) := getSchemeAux s [] s

/-- Go `url.validOptionalPort`: empty, or `':'` followed by digits only. -/
def validOptionalPort (p : Str) : Bool :=
  match p with
  | [] => true
  | ':' :: ds => ds.all Char.isDigit
  | _ => false

/-- Go `url.parseHost` (escaping not modelled): checks the optional
port; bracketed IPv6 hosts are checked for a closing bracket. -/
def parseHostGo (host : Str) : Except Str Str :=
  if hasPfx (strL "[") host then
    let afterClose := (splitOnGo host (strL "]")).getLastD []
    if containsChar host ']' then
      if validOptionalPort afterClose then .ok host
      else .error (strL "invalid port after host")
    else .error (strL "missing ']' in host")
  else
    let i := host.reverse.takeWhile (· ≠ ':')
    if containsChar host ':' then
      -- the colon-port candidate is everything from the last colon on
      if validOptionalPort (':' :: i.reverse) then .ok host
      else .error (strL "invalid port after host")
    else .ok host

/-- Go `url.validUserinfo`. -/
def validUserinfo (s : Str) : Bool :=
  s.all fun c =>
    c.isAlpha || c.isDigit ||
      [
        '-', '.', '_', ':', '~', '!', '$', '&', '\'', '(', ')', '*', '+',
        ',', ';', '=', '%', '@'
      ].any (· = c)

/-- Go `url.parseAuthority`: split at the last `'@'` into userinfo and
host. -/
def parseAuthorityGo (authority : Str) : Except Str (Option Str × Str) :=
  if containsChar authority '@' then
    let hostRev := authority.reverse.takeWhile (· ≠ '@')
    let host := hostRev.reverse
    let userinfo := authority.take (authority.length - hostRev.length - 1)
    match parseHostGo host with
    | .error e => .error e
    | .ok h =>
      if validUserinfo userinfo then .ok (some userinfo, h)
      else .error (strL "net/url: invalid userinfo")
  else
    match parseHostGo authority with
    | .error e => .error e
    | .ok h => .ok (none, h)

/-- The ForceQuery / RawQuery split of Go `url.parse`: returns the rest,
the raw query, and the ForceQuery flag. -/
def splitQueryGo (rest0 : Str) : Str × Str × Bool :=
  if endsWithL rest0 (strL "?") && !containsChar (rest0.take (rest0.length - 1)) '?' then
    (rest0.take (rest0.length - 1), [], true)
  else
    match cutChar '?' rest0 with
    | (pre, some post) => (pre, post, false)
    | (pre, none) => (pre, [], false)

/-- The authority/rest split of Go `url.parse`: cut at the first slash,
keeping the slash on the rest. -/
def splitAuthorityGo (s : Str) : Str × Str :=
  match firstCut (strL "/") s with
  | none => (s, [])
  | some (pre, post) => (pre, '/' :: post)

/-- The remainder of Go `url.parse` once the scheme has been removed:
`schemeL` is the lowercased scheme, `rest0` the text after the scheme,
`frag` the fragment. -/
def urlParseAfterScheme (schemeL : Str) (rest0 : Str) (frag : Str) :
    Except Str GoURL :=
  match splitQueryGo rest0 with
  | (rest, rawQuery, forceQ) =>
    if hasPfx (strL "/") rest then
      if (schemeL ≠ [] || !hasPfx (strL "///") rest) && hasPfx (strL "//") rest then
        match splitAuthorityGo (rest.drop 2) with
        | (authority, rest') =>
          match parseAuthorityGo authority with
          | .error e => .error e
          | .ok (user, host) =>
            .ok { scheme := schemeL, user := user, host := host, path := rest',
                  forceQuery := forceQ, rawQuery := rawQuery, fragment := frag }
      else
        .ok { scheme := schemeL, path := rest, forceQuery := forceQ,
              rawQuery := rawQuery, fragment := frag }
    else
      if schemeL ≠ [] then
        .ok { scheme := schemeL, opq := rest, forceQuery := forceQ,
              rawQuery := rawQuery, fragment := frag }
      else
        if containsChar (cutChar '/' rest).1 ':' then
          .error (strL "first path segment in URL cannot contain colon")
        else
          .ok { scheme := [], path := rest, forceQuery := forceQ,
                rawQuery := rawQuery, fragment := frag }

/-- Go `url.Parse` (without percent-escaping). -/
def urlParse (s : Str) : Except Str GoURL :=
  match cutChar '#' s with
  | (body, fragOpt) =>
    match getSchemeGo body with
    | .error e => .error e
    | .ok (sch, rest) => urlParseAfterScheme (toLowerL sch) rest (fragOpt.getD [])

/-- Go `url.Parse` error messages are wrapped as
`parse "<url>": <err>`; used where the caller surfaces them. -/
def urlParseWrapped (s : Str) : Except Str GoURL :=
  match urlParse s with
  | .error e => .error (strL "parse \"" ++ s ++ strL "\": " ++ e)
  | .ok u => .ok u

/-- The query-and-fragment tail of Go `url.URL.String`. -/
def goURLTail (u : GoURL) : Str :=
  (if u.forceQuery || u.rawQuery ≠ [] then '?' :: u.rawQuery else []) ++
    (if u.fragment ≠ [] then '#' :: u.fragment else [])

/-- Everything Go `url.URL.String` writes after the `scheme:` part. -/
def goURLBody (u : GoURL) : Str :=
  if u.opq ≠ [] then u.opq ++ goURLTail u
  else
    let auth :=
      if u.scheme ≠ [] || u.host ≠ [] || u.user.isSome then
        (if u.host ≠ [] || u.path ≠ [] || u.user.isSome then strL "//" else []) ++
          (match u.user with
           | some ui => ui ++ ['@']
           | none => []) ++ u.host
      else []
    let slash :=
      if u.path ≠ [] && !hasPfx (strL "/") u.path && u.host ≠ [] then strL "/" else []
    -- `buf.Len() == 0` in Go: nothing written yet, i.e. no scheme and
    -- empty authority and no inserted slash
    let dotSlash :=
      if u.scheme = [] && auth = [] && slash = [] &&
          containsChar (cutChar '/' u.path).1 ':' then
        strL "./"
      else []
    auth ++ slash ++ dotSlash ++ u.path ++ goURLTail u

/-- Go `url.URL.String` (without percent-escaping). -/
def goURLString (u : GoURL) : Str :=
  (if u.scheme ≠ [] then u.scheme ++ [':'] else []) ++ goURLBody u

/-! ## `url.Values`: query parsing, lookup, deletion, encoding -/

abbrev Values := List (Str × Str)

/-- Go `url.ParseQuery`, as used through `u.Query()` (parse errors are
ignored there; chunks containing a semicolon are skipped, empty chunks
are dropped, and escaping is not modelled). -/
def parseQueryGo (s : Str) : Values :=
  (splitOnGo s (strL "&")).filterMap fun chunk =>
    if chunk = [] then none
    else if containsChar chunk ';' then none
    else match cutChar '=' chunk with
      | (k, some v) => some (k, v)
      | (k, none) => some (k, [])

/-- `Values.Get`: first value for the key, or empty. -/
def getQ (q : Values) (key : Str) : Str :=
  match q.find? (fun p => p.1 = key) with
  | some p => p.2
  | none => []

/-- `Values.Del`. -/
def delQ (q : Values) (key : Str) : Values := q.filter (fun p => p.1 ≠ key)

def hasKeyQ (q : Values) (key : Str) : Bool := q.any (fun p => p.1 = key)

/-- Lexicographic (byte-wise) order on ASCII strings, as used by
Go's `sort.Strings` in `Values.Encode`. -/
def strLt : Str → Str → Bool
  | [], [] => false
  | [], _ :: _ => true
  | _ :: _, [] => false
  | a :: as, b :: bs => a < b || (a = b && strLt as bs)

def insertSorted (k : Str) : List Str → List Str
  | [] => [k]
  | x :: xs => if strLt k x then k :: x :: xs else x :: insertSorted k xs

def sortKeys (ks : List Str) : List Str := ks.foldr insertSorted []

/-- `Values.Encode`: keys in sorted order, each key's values in
insertion order. -/
def encodeQuery (q : Values) : Str :=
  let keys := (q.map (·.1)).foldl (fun acc k => if acc.contains k then acc else acc ++ [k]) []
  intercalateL (strL "&")
    ((sortKeys keys).flatMap fun k =>
      (q.filter (fun p => p.1 = k)).map fun p => p.1 ++ ['='] ++ p.2)

/-! ## `ClassifyURI` from `common.go` -/

inductive URIType where
  | GitURI
  | HTTPURI
  | FileURI
  | OCIURI
  | Unknown
deriving DecidableEq, Repr

open URIType

/-- Does `url.Parse(input)` succeed with scheme exactly `http` or
`https`?  (The inner check of the HTTP branch of `ClassifyURI`.) -/
def httpSchemeOk (input : Str) : Bool :=
  match urlParse input with
  | .ok u => u.scheme = strL "http" || u.scheme = strL "https"
  | .error _ => false

/-- The trailing branches of `ClassifyURI`: unsupported-scheme check,
then the dotted-string check. -/
def classifyTail (input : Str) : URIType × Option Str :=
  let dotCheck : URIType × Option Str :=
    if containsChar input '.' then
      (Unknown, some (strL "got " ++ input ++
        strL ". HTTP(S) URIs require a scheme (http:// or https://)"))
    else (Unknown, none)
  match urlParse input with
  | .ok u =>
    if u.scheme ≠ [] && u.scheme ≠ strL "http" && u.scheme ≠ strL "https" then
      (Unknown, some (strL "unsupported source protocol: " ++ u.scheme))
    else dotCheck
  | .error _ => dotCheck

/-- `ClassifyURI` from `common.go`.  The Go function returns a
`(URIType, error)` pair; the error is modelled as an optional message. -/
def ClassifyURI (home : Option Str) (input : Str) : URIType × Option Str :=
  if hasPfx (strL "git::") input then (GitURI, none)
  else if hasPfx (strL "file::") input then (FileURI, none)
  else if hasPfx (strL "http::") input then (HTTPURI, none)
  else if hasPfx (strL "oci::") input then (OCIURI, none)
  else if hasPfx (strL "github.com") input || hasPfx (strL "gitlab.com") input then
    (GitURI, none)
  else if filePathMatch input then
    if endsWithL (ExpandTilde home input) (strL ".git") then (GitURI, none)
    else (FileURI, none)
  else if gitURIMatch input then (GitURI, none)
  else if httpURIMatch input && httpSchemeOk input then (HTTPURI, none)
  else if ociURIMatch input then (OCIURI, none)
  else if containsOCIRegistry input then (OCIURI, none)
  else classifyTail input

/-! ## The `whilp/git-urls` package (`gitUrls.Parse`) -/

def gitTransports : List Str :=
  [strL "ssh", strL "git", strL "git+ssh", strL "http", strL "https",
   strL "ftp", strL "ftps", strL "rsync", strL "file"]

/-- `ParseTransport`: a standard URL whose scheme is a known Git
transport. -/
def parseTransport (raw : Str) : Except Str GoURL :=
  match urlParse raw with
  | .error e => .error e
  | .ok u =>
    if gitTransports.contains u.scheme then .ok u
    else .error (strL "scheme is not a valid transport")

/-- `ParseScp`: the SCP-like syntax
`^(?:([a-zA-Z0-9-._~]+)@)?([a-zA-Z0-9-._~]+):(.*)$`, rendered as an
`ssh` URL; a `?` inside the path starts the raw query. -/
def parseScp (raw : Str) : Except Str GoURL :=
  match firstCut (strL ":") raw with
  | none => .error (strL "no scp URL found")
  | some (pre, path0) =>
    let (user, host) :=
      match firstCut (strL "@") pre with
      | some (u, h) => (some u, h)
      | none => (none, pre)
    let userOk :=
      match user with
      | some u => !u.isEmpty && u.all isScpChar
      | none => true
    if userOk && !host.isEmpty && host.all isScpChar && !containsChar host '@' then
      let (path, rawq) :=
        match cutChar '?' path0 with
        | (p, some q) => (p, q)
        | (p, none) => (p, [])
      .ok { scheme := strL "ssh", user := user, host := host, path := path,
            rawQuery := rawq }
    else .error (strL "no scp URL found")

/-- `ParseLocal`: anything parses as a `file` URL with the raw text as
its path. -/
def parseLocal (raw : Str) : GoURL := { scheme := strL "file", path := raw }

/-- `gitUrls.Parse`: transport URL, then SCP syntax, then local path. -/
def gitUrlsParse (raw : Str) : GoURL :=
  match parseTransport raw with
  | .ok u => u
  | .error _ =>
    match parseScp raw with
    | .ok u => u
    | .error _ => parseLocal raw

/-! ## `processUrl` from `gather/git/git.go` -/

/-- `extractSubdirFromQuery` from `gather/git/git.go`: reads `key` from
the query values, splits its value at the first `//` into value and
subdirectory, and deletes the key in either case.  The Go function
mutates `q` and `*subdir`; here the updated query and subdirectory are
returned alongside the value. -/
def extractSubdirFromQuery (q : Values) (key : Str) (subdir : Str) :
    Str × Values × Str :=
  let value := getQ q key
  if containsSub value (strL "//") then
    let parts := splitN2 value (strL "//")
    (parts.1, delQ q key, parts.2)
  else (value, delQ q key, subdir)

/-- The query-extraction / path-split / `.git`-suffix tail shared by
both versions of `processUrl` (their Go code is identical from the
reparse on): extract `ref` and `depth` (sharing one subdirectory
variable), rebuild the query, split the path at `//`, and append
`.git` when missing. -/
def processQueryAndPath (u : GoURL) : GoURL × Str × Str × Str :=
  let q0 := parseQueryGo u.rawQuery
  let (ref, q1, sub1) := extractSubdirFromQuery q0 (strL "ref") []
  let (depth, q2, sub2) := extractSubdirFromQuery q1 (strL "depth") sub1
  let u1 := { u with rawQuery := encodeQuery q2 }
  let (path1, sub3) :=
    if containsSub u1.path (strL "//") then
      let parts := splitN2 u1.path (strL "//")
      (parts.1, parts.2)
    else (u1.path, sub2)
  let path2 := if endsWithL path1 (strL ".git") then path1 else path1 ++ strL ".git"
  ({ u1 with path := path2 }, ref, sub3, depth)

/-- The steps of `processUrl` (`gather/git/git.go`) up to, but not
including, the final `u.String()` rendering: classification, the
HTTPS-prepend for bare Git shorthands, the `::` strip, the
`gitUrls.Parse` / `url.Parse` round-trip, the query extraction and the
`//`-path split, and the `.git` suffix.  Returns the final URL record
together with ref, subdirectory and depth. -/
def processUrlCore (home : Option Str) (rawURL0 : Str) :
    Except Str (GoURL × Str × Str × Str) :=
  match ClassifyURI home rawURL0 with
  | (_, some e) => .error (strL "failed to classify URI: " ++ e)
  | (t, none) =>
    let rawURL1 :=
      if t = GitURI && !containsSub rawURL0 (strL "git@") &&
          !containsSub rawURL0 (strL "://") then
        strL "https://" ++ rawURL0
      else rawURL0
    let rawURL2 :=
      if containsSub rawURL1 (strL "::") then
        (splitOnGo rawURL1 (strL "::")).getD 1 []
      else rawURL1
    let parsedURL := gitUrlsParse rawURL2
    match urlParse (goURLString parsedURL) with
    | .error e => .error (strL "failed to reparse URL: " ++ e)
    | .ok u => .ok (processQueryAndPath u)

/-- `processUrl` from `gather/git/git.go`: `processUrlCore` followed by
the final `u.String()`. -/
def processUrl (home : Option Str) (rawURL : Str) :
    Except Str (Str × Str × Str × Str) :=
  match processUrlCore home rawURL with
  | .error e => .error e
  | .ok (u, ref, subdir, depth) => .ok (goURLString u, ref, subdir, depth)

/-- String-level wrapper of `processUrl` for concrete test inputs. -/
def processUrlS (home : Option String) (rawURL : String) :
    Except String (String × String × String × String) :=
  match processUrl (home.map strL) (strL rawURL) with
  | .error e => .error (String.mk e)
  | .ok (u, r, s, d) => .ok (String.mk u, String.mk r, String.mk s, String.mk d)

/-- The canonical `https` clone-URL shape
`https://<host>/<org>/<repo>.git` (the shape of `processUrl`'s output
for https inputs). -/
def httpsCloneURL (A B C : Str) : Str :=
  strL "https://" ++ A ++ strL "/" ++ B ++ strL "/" ++ C ++ strL ".git"

/-- String-level wrapper of `ClassifyURI`. -/
def ClassifyURIS (home : Option String) (input : String) : URIType × Option String :=
  let (t, e) := ClassifyURI (home.map strL) (strL input)
  (t, e.map String.mk)

namespace GitAlt

/-- `extractKeyFromQuery` from the alternate (historical) version of the
git gatherer (`src/unnamed/part_010`); its body is identical to
`extractSubdirFromQuery`. -/
def extractKeyFromQuery (q : Values) (key : Str) (subdir : Str) :
    Str × Values × Str :=
  extractSubdirFromQuery q key subdir

/-- `processUrl` from the alternate version (`src/unnamed/part_010`):
identical to the current one except that the `::` strip happens BEFORE
the HTTPS-prepend check, and the prepend condition inspects the
stripped string. -/
def processUrlCore (home : Option Str) (rawURL0 : Str) :
    Except Str (GoURL × Str × Str × Str) :=
  match ClassifyURI home rawURL0 with
  | (_, some e) => .error (strL "failed to classify URI: " ++ e)
  | (t, none) =>
    let rawURL1 :=
      if containsSub rawURL0 (strL "::") then
        (splitOnGo rawURL0 (strL "::")).getD 1 []
      else rawURL0
    let rawURL2 :=
      if t = GitURI && !containsSub rawURL1 (strL "git@") &&
          !containsSub rawURL1 (strL "://") then
        strL "https://" ++ rawURL1
      else rawURL1
    let parsedURL := gitUrlsParse rawURL2
    match urlParse (goURLString parsedURL) with
    | .error e => .error (strL "failed to reparse URL: " ++ e)
    | .ok u => .ok (processQueryAndPath u)

def processUrl (home : Option Str) (rawURL : Str) :
    Except Str (Str × Str × Str × Str) :=
  match GitAlt.processUrlCore home rawURL with
  | .error e => .error e
  | .ok (u, ref, subdir, depth) => .ok (goURLString u, ref, subdir, depth)

def processUrlS (home : Option String) (rawURL : String) :
    Except String (String × String × String × String) :=
  match GitAlt.processUrl (home.map strL) (strL rawURL) with
  | .error e => .error (String.mk e)
  | .ok (u, r, s, d) => .ok (String.mk u, String.mk r, String.mk s, String.mk d)

end GitAlt

/-! ## The protocol dispatcher (`Gather` and `protocolHandlers`,
`src/unnamed/part_006`)

The registration table maps a scheme to a gatherer; in the source only
the `"file"` entry is present (the `http` and `git` entries are
commented out and there is no `oci` entry).  The file gatherer itself
performs I/O and is abstracted as a function parameter; the dispatcher
never inspects its result. -/

def registeredSchemes : List Str := [strL "file"]

/-- `Gather` from the dispatcher: parse the source URL, look its scheme
up in `protocolHandlers`, delegate `(src.Path, destination)` to the
registered gatherer, or fail with the unsupported-protocol error. -/
def GatherDispatch {α : Type} (fileGatherer : Str → Str → Except Str α)
    (source destination : Str) : Except Str α :=
  match urlParseWrapped source with
  | .error e => .error e
  | .ok src =>
    if registeredSchemes.contains src.scheme then fileGatherer src.path destination
    else .error (strL "unsupported source protocol: " ++ src.scheme)

def GatherDispatchS {α : Type} (fileGatherer : Str → Str → Except Str α)
    (source destination : String) : Except String α :=
  match GatherDispatch fileGatherer (strL source) (strL destination) with
  | .error e => .error (String.mk e)
  | .ok a => .ok a

/-! ## Pinned-URL rewriting for git metadata

Modelled from the spec: the git `GetPinnedURL` implementation is not
among the repository sources (only its tests in
`src/metadata/git/git_test.go` are); §4.5 of the spec describes it as:
require a non-empty `latestCommit` (else fail "latest commit not
set"), fail on an empty locator ("empty URL"), and rewrite the locator
to canonical `git::<host>/<path>[//<subdir>]?ref=<commit>` form,
discarding any pre-existing `ref=` and normalizing the scheme prefix
to `git::`.  `user@host:path` locators are normalized to `host/path`
(spec §6 locator grammar; both behaviours agree with every test case
in `git_test.go`). -/

/-- Strip a leading `git::`, then either a `<scheme>://` transport
prefix or the SCP-style `user@host:` head, yielding the
`<host>/<path>` body of the locator. -/
def pinnedBody (url : Str) : Str :=
  let s1 := if hasPfx (strL "git::") url then url.drop 5 else url
  let s2 :=
    match firstCut (strL "://") s1 with
    | some (_, after) => after
    | none =>
      match firstCut (strL ":") s1 with
      | some (pre, rest) =>
        match firstCut (strL "@") pre with
        | some (_, host) => host ++ strL "/" ++ rest
        | none => s1
      | none => s1
  (cutChar '?' s2).1

/-- Modelled from the spec: `GetPinnedURL` of the git metadata. -/
def GetPinnedURL (latestCommit url : Str) : Except Str Str :=
  if latestCommit = [] then .error (strL "latest commit not set")
  else if url = [] then .error (strL "empty URL")
  else .ok (strL "git::" ++ pinnedBody url ++ strL "?ref=" ++ latestCommit)

def GetPinnedURLS (latestCommit url : String) : Except String String :=
  match GetPinnedURL (strL latestCommit) (strL url) with
  | .error e => .error (String.mk e)
  | .ok s => .ok (String.mk s)

/-! ## Directory-copy error aggregation (`copyDirectory`,
`gather/file/file.go`)

The concurrent pipeline is abstracted sequentially: the walk submits
one unit of work per file (each worker sends its error, if any, on the
shared channel), a walk failure itself is sent on the channel, and the
caller drains the channel, aborting on the first non-nil error with
the "failed to copy directory" wrap.  Channel delivery order is
abstracted as list order; destination files written by successful
workers are recorded and are never removed. -/

structure FileTask where
  dest : Str
  copyErr : Option Str
deriving DecidableEq, Repr

/-- The destination files that the workers finished writing. -/
def writtenFiles (tasks : List FileTask) : List Str :=
  tasks.filterMap fun t => if t.copyErr = none then some t.dest else none

/-- The errors that arrive on the error channel. -/
def copyErrors (walkErr : Option Str) (tasks : List FileTask) : List Str :=
  tasks.filterMap (fun t => t.copyErr) ++ walkErr.toList

/-- `copyDirectory`: the written destination files together with the
drained result — the first error, wrapped as
"failed to copy directory: …", or success. -/
def copyDirectory (walkErr : Option Str) (tasks : List FileTask) :
    List Str × Except Str Unit :=
  (writtenFiles tasks,
    match copyErrors walkErr tasks with
    | [] => .ok ()
    | e :: _ => .error (strL "failed to copy directory: " ++ e))

/-! ## Shared lemmas -/

theorem hasPfx_append_self (p t : Str) : hasPfx p (p ++ t) = true := by
  induction p with
  | nil => rfl
  | cons c cs ih => simp [hasPfx, ih]

theorem endsWith_append_self (l s : Str) : endsWithL (l ++ s) s = true := by
  simp [endsWithL, List.reverse_append, hasPfx_append_self]

theorem hasPfx_cons (a : Char) (p s : Str) :
    hasPfx (a :: p) s = true ↔ ∃ t, s = a :: t ∧ hasPfx p t = true := by
  cases s with
  | nil => simp [hasPfx]
  | cons c cs =>
    simp only [hasPfx, Bool.and_eq_true, decide_eq_true_eq]
    constructor
    · rintro ⟨rfl, h⟩
      exact ⟨cs, rfl, h⟩
    · rintro ⟨t, ht, h⟩
      cases ht
      exact ⟨rfl, h⟩

theorem containsChar_cutChar_fst (c : Char) (l : Str) :
    containsChar (cutChar c l).1 c = false := by
  induction l with
  | nil => rfl
  | cons d ds ih =>
    by_cases h : d = c
    · simp [cutChar, h, containsChar]
    · simpa [cutChar, h, containsChar] using ih

theorem cutChar_of_not_mem (c : Char) (l : Str) (h : ∀ d ∈ l, d ≠ c) :
    cutChar c l = (l, none) := by
  induction l with
  | nil => rfl
  | cons d ds ih =>
    have hd : d ≠ c := h d (List.mem_cons_self d ds)
    have ih' := ih (fun x hx => h x (List.mem_cons_of_mem d hx))
    simp [cutChar, hd, ih']

theorem cutChar_append_of_not_mem (c : Char) (pre l : Str) (h : ∀ d ∈ pre, d ≠ c) :
    cutChar c (pre ++ l) = (pre ++ (cutChar c l).1, (cutChar c l).2) := by
  induction pre with
  | nil => simp
  | cons d ds ih =>
    have hd : d ≠ c := h d (List.mem_cons_self d ds)
    have ih' := ih (fun x hx => h x (List.mem_cons_of_mem d hx))
    simp [cutChar, hd, ih']

theorem firstCut_append_sep (q r : Str) (hq : ∀ c ∈ q, c ≠ '/') :
    firstCut (strL "/") (q ++ '/' :: r) = some (q, r) := by
  induction q with
  | nil => simp [firstCut, hasPfx, strL]
  | cons c cs ih =>
    have hc : c ≠ '/' := hq c (List.mem_cons_self c cs)
    have ih' := ih (fun x hx => hq x (List.mem_cons_of_mem c hx))
    simp only [strL] at ih' ⊢
    simp [firstCut, hasPfx, Ne.symm hc, ih']

theorem firstCut_none_of_no_slash (q : Str) (hq : ∀ c ∈ q, c ≠ '/') :
    firstCut (strL "/") q = none := by
  induction q with
  | nil => rfl
  | cons c cs ih =>
    have hc : c ≠ '/' := hq c (List.mem_cons_self c cs)
    have ih' := ih (fun x hx => hq x (List.mem_cons_of_mem c hx))
    simp only [strL] at ih' ⊢
    simp [firstCut, hasPfx, Ne.symm hc, ih']

theorem splitOnAux_last (f : Nat) (q : Str) (hq : ∀ c ∈ q, c ≠ '/') :
    splitOnAuxGo (strL "/") f q = [q] := by
  cases f with
  | zero => rfl
  | succ g => simp [splitOnAuxGo, firstCut_none_of_no_slash q hq]

theorem splitOnAux_step (f : Nat) (q r : Str) (hq : ∀ c ∈ q, c ≠ '/') :
    splitOnAuxGo (strL "/") (f + 1) (q ++ '/' :: r) =
      q :: splitOnAuxGo (strL "/") f r := by
  simp [splitOnAuxGo, firstCut_append_sep q r hq]

/-- `strings.Split` of `a/b/c` into its three slash-free segments. -/
theorem splitOnGo_three (a b c : Str) (ha : ∀ x ∈ a, x ≠ '/')
    (hb : ∀ x ∈ b, x ≠ '/') (hc : ∀ x ∈ c, x ≠ '/') :
    splitOnGo (a ++ '/' :: (b ++ '/' :: c)) (strL "/") = [a, b, c] := by
  have hlen : (a ++ '/' :: (b ++ '/' :: c)).length + 1 =
      (a.length + b.length + c.length + 1) + 1 + 1 := by
    simp [List.length_append]
    omega
  rw [splitOnGo, hlen, splitOnAux_step _ _ _ ha, splitOnAux_step _ _ _ hb,
    splitOnAux_last _ _ hc]

theorem containsSub_cons (c : Char) (l pat : Str) :
    containsSub (c :: l) pat = (hasPfx pat (c :: l) || containsSub l pat) := rfl

theorem containsSub_of_no_first_char (l pat : Str) (c : Char) (hpat : pat = c :: pat.tail)
    (h : ∀ d ∈ l, d ≠ c) : containsSub l pat = false := by
  induction l with
  | nil => rw [hpat]; rfl
  | cons d ds ih =>
    have hd : d ≠ c := h d (List.mem_cons_self d ds)
    have ih' := ih (fun x hx => h x (List.mem_cons_of_mem d hx))
    rw [containsSub_cons, ih', Bool.or_false, hpat]
    simp [hasPfx, Ne.symm hd]

theorem containsSub_append_of_no_first_char (pre l pat : Str) (c : Char)
    (hpat : pat = c :: pat.tail) (h : ∀ d ∈ pre, d ≠ c) :
    containsSub (pre ++ l) pat = containsSub l pat := by
  induction pre with
  | nil => simp
  | cons d ds ih =>
    have hd : d ≠ c := h d (List.mem_cons_self d ds)
    have ih' := ih (fun x hx => h x (List.mem_cons_of_mem d hx))
    rw [List.cons_append, containsSub_cons, ih', hpat]
    simp [hasPfx, Ne.symm hd]

theorem isWordDotDash_ne (ch : Char) (h : isWordDotDash ch = true) :
    ch ≠ '/' ∧ ch ≠ ':' ∧ ch ≠ '@' ∧ ch ≠ '?' ∧ ch ≠ '#' ∧ ch ≠ '[' := by
  refine ⟨?_, ?_, ?_, ?_, ?_, ?_⟩ <;>
    · rintro rfl
      simp [isWordDotDash, Char.isAlpha, Char.isUpper, Char.isLower, Char.isDigit] at h

theorem transports_facts :
    ∀ s ∈ gitTransports, s ≠ [] ∧ toLowerL s = s ∧ (∀ d ∈ s ++ [':'], d ≠ '#') := by
  decide

theorem getScheme_transport :
    ∀ s ∈ gitTransports, ∀ rest, getSchemeGo (s ++ ':' :: rest) = .ok (s, rest) := by
  intro s hs rest
  fin_cases hs <;> rfl

theorem urlParseAfterScheme_scheme (sc rest frag : Str) (u : GoURL)
    (h : urlParseAfterScheme sc rest frag = .ok u) : u.scheme = sc := by
  unfold urlParseAfterScheme at h
  rcases hq : splitQueryGo rest with ⟨r, rq, fq⟩
  rw [hq] at h
  dsimp only at h
  by_cases h1 : hasPfx (strL "/") r = true
  · rw [if_pos h1] at h
    by_cases h2 : ((sc ≠ [] || !hasPfx (strL "///") r) && hasPfx (strL "//") r) = true
    · rw [if_pos h2] at h
      rcases ha : splitAuthorityGo (r.drop 2) with ⟨auth, r2⟩
      rw [ha] at h
      rcases hpa : parseAuthorityGo auth with e | ⟨us, ho⟩ <;> rw [hpa] at h
      · cases h
      · cases h
        rfl
    · rw [if_neg h2] at h
      cases h
      rfl
  · rw [if_neg h1] at h
    by_cases h3 : sc ≠ []
    · rw [if_pos h3] at h
      cases h
      rfl
    · rw [if_neg h3] at h
      by_cases h4 : containsChar (cutChar '/' r).1 ':' = true
      · rw [if_pos h4] at h
        cases h
      · rw [if_neg h4] at h
        cases h
        push_neg at h3
        simp [h3]

theorem goURLString_of_scheme (w : GoURL) (h : w.scheme ≠ []) :
    goURLString w = w.scheme ++ ':' :: goURLBody w := by
  simp [goURLString, h]

theorem urlParse_goURLString_scheme (w : GoURL) (hw : w.scheme ∈ gitTransports)
    (v : GoURL) (h : urlParse (goURLString w) = .ok v) : v.scheme = w.scheme := by
  obtain ⟨hne, hlow, hhash⟩ := transports_facts w.scheme hw
  rw [goURLString_of_scheme w hne] at h
  have hsplit : w.scheme ++ ':' :: goURLBody w = (w.scheme ++ [':']) ++ goURLBody w := by
    simp
  rw [hsplit] at h
  unfold urlParse at h
  rw [cutChar_append_of_not_mem '#' (w.scheme ++ [':']) (goURLBody w) hhash] at h
  dsimp only at h
  have hform : (w.scheme ++ [':']) ++ (cutChar '#' (goURLBody w)).1 =
      w.scheme ++ ':' :: (cutChar '#' (goURLBody w)).1 := by simp
  rw [hform, getScheme_transport w.scheme hw _] at h
  dsimp only at h
  rw [hlow] at h
  exact urlParseAfterScheme_scheme _ _ _ _ h

theorem parseScp_scheme (raw : Str) (u : GoURL) (h : parseScp raw = .ok u) :
    u.scheme = strL "ssh" := by
  unfold parseScp at h
  rcases hc : firstCut (strL ":") raw with _ | ⟨pre, path0⟩ <;> rw [hc] at h
  · cases h
  · dsimp only at h
    rcases hu : firstCut (strL "@") pre with _ | ⟨us, ho⟩ <;> rw [hu] at h <;>
      dsimp only at h
    · split at h
      · rcases hq : cutChar '?' path0 with ⟨p, q⟩
        rw [hq] at h
        rcases q with _ | q' <;> dsimp only at h <;> cases h <;> rfl
      · cases h
    · split at h
      · rcases hq : cutChar '?' path0 with ⟨p, q⟩
        rw [hq] at h
        rcases q with _ | q' <;> dsimp only at h <;> cases h <;> rfl
      · cases h

theorem parseTransport_mem (raw : Str) (u : GoURL) (h : parseTransport raw = .ok u) :
    u.scheme ∈ gitTransports := by
  unfold parseTransport at h
  rcases hp : urlParse raw with e | v <;> rw [hp] at h
  · cases h
  · dsimp only at h
    split at h
    · rename_i hc
      cases h
      simpa using hc
    · cases h

theorem gitUrlsParse_scheme_mem (raw : Str) :
    (gitUrlsParse raw).scheme ∈ gitTransports := by
  unfold gitUrlsParse
  rcases ht : parseTransport raw with e | u
  · rcases hs : parseScp raw with e2 | u2
    · show (parseLocal raw).scheme ∈ gitTransports
      show strL "file" ∈ gitTransports
      decide
    · show u2.scheme ∈ gitTransports
      rw [parseScp_scheme raw u2 hs]
      decide
  · exact parseTransport_mem raw u ht

theorem hasKeyQ_delQ (q : Values) (k : Str) : hasKeyQ (delQ q k) k = false := by
  rw [Bool.eq_false_iff]
  intro hc
  rw [hasKeyQ, List.any_eq_true] at hc
  obtain ⟨p, hp, he⟩ := hc
  rw [delQ, List.mem_filter] at hp
  rw [decide_eq_true_eq] at he
  have hne : p.1 ≠ k := by simpa using hp.2
  exact hne he

theorem getQ_delQ_ne (q : Values) (k k2 : Str) (h : k2 ≠ k) :
    getQ (delQ q k) k2 = getQ q k2 := by
  induction q with
  | nil => rfl
  | cons p ps ih =>
    by_cases hp : p.1 = k
    · have hp2 : p.1 ≠ k2 := by rw [hp]; exact fun he => h he.symm
      simpa [delQ, getQ, List.filter, List.find?, hp, hp2, Ne.symm h] using ih
    · by_cases hp2 : p.1 = k2
      · simp [delQ, getQ, List.filter, List.find?, hp, hp2, h]
      · simpa [delQ, getQ, List.filter, List.find?, hp, hp2] using ih

theorem all_wordDotDash_ne (l : Str) (h : l.all isWordDotDash = true) :
    ∀ c, (c = '/' ∨ c = ':' ∨ c = '@' ∨ c = '?' ∨ c = '#' ∨ c = '[') →
      ∀ d ∈ l, d ≠ c := by
  intro c hc d hd
  have hw : isWordDotDash d = true := by
    rw [List.all_eq_true] at h
    exact h d hd
  have := isWordDotDash_ne d hw
  rcases hc with rfl | rfl | rfl | rfl | rfl | rfl <;> tauto

/-! ## Claim theorems -/

/-- C1: `Classify` maps the known container-registry hosts
`quay.io/user/repo:latest`, `127.0.0.1:5000` and `registry.gitlab.com/x/y`
to OCI with no error, via the known-registry patterns after the prefix,
file-path, git-shape, HTTP-shape and `oci://` checks have failed. -/
theorem classify_known_registries_OCI :
    ClassifyURIS none "quay.io/user/repo:latest" = (URIType.OCIURI, none) ∧
    ClassifyURIS none "127.0.0.1:5000" = (URIType.OCIURI, none) ∧
    ClassifyURIS none "registry.gitlab.com/x/y" = (URIType.OCIURI, none) := by
  decide

/-- C2: `ProcessGitURL("git::https://example.com/org/repo.git?ref=main//sub")`
returns cloneURL `https://example.com/org/repo.git`, ref `main`,
subdirectory `sub` and depth `""` with no error: the `ref` query value
is split on `//`, and the consumed `ref` key is removed from the
rebuilt query. -/
theorem processGitURL_roundTrip :
    processUrlS none "git::https://example.com/org/repo.git?ref=main//sub" =
      .ok ("https://example.com/org/repo.git", "main", "sub", "") := by
  decide

/-- C5 (code bug): the dispatcher's `protocolHandlers` table registers
only the `file` gatherer (the `http`/`git` entries are commented out
and there is no `oci` entry), so `Gather` on the repository's own
test input `git::https://github.com/git-fixtures/basic.git` — which the
test expects to succeed — fails with "unsupported source protocol: git",
for every file gatherer and destination. -/
theorem gather_git_scheme_unsupported {α : Type}
    (fg : Str → Str → Except Str α) (dest : String) :
    GatherDispatchS fg "git::https://github.com/git-fixtures/basic.git" dest =
      .error "unsupported source protocol: git" ∧
    GatherDispatch fg (strL "file:///tmp/foo.txt") (strL dest) =
      fg (strL "/tmp/foo.txt") (strL dest) := by
  constructor <;> rfl

/-- C6: `copyDirectory` reports no error when the walk and every file
copy succeed; any single failing unit of work (walk step or file copy)
makes it return an error wrapped as "failed to copy directory"; and
destination files written by successful copies are not removed on
error. -/
theorem copyDirectory_error_aggregation :
    (∀ tasks : List FileTask, (∀ t ∈ tasks, t.copyErr = none) →
      (copyDirectory none tasks).2 = .ok ()) ∧
    (∀ (walkErr : Option Str) (tasks : List FileTask),
      (walkErr ≠ none ∨ ∃ t ∈ tasks, t.copyErr ≠ none) →
      ∃ e, (copyDirectory walkErr tasks).2 =
        .error (strL "failed to copy directory: " ++ e)) ∧
    (∀ (walkErr : Option Str) (tasks : List FileTask) (t : FileTask),
      t ∈ tasks → t.copyErr = none →
      t.dest ∈ (copyDirectory walkErr tasks).1) := by
  refine ⟨?_, ?_, ?_⟩
  · intro tasks h
    have hnil : copyErrors none tasks = [] := by
      simp [copyErrors, List.filterMap_eq_nil_iff]
      exact h
    simp [copyDirectory, hnil]
  · intro walkErr tasks h
    have hne : copyErrors walkErr tasks ≠ [] := by
      rcases h with hw | ⟨t, ht, he⟩
      · rcases walkErr with _ | e
        · exact absurd rfl hw
        · simp [copyErrors]
      · rcases hcopy : t.copyErr with _ | e
        · exact absurd hcopy he
        · have : e ∈ copyErrors walkErr tasks := by
            rw [copyErrors, List.mem_append]
            exact Or.inl (List.mem_filterMap.mpr ⟨t, ht, hcopy⟩)
          exact List.ne_nil_of_mem this
    rcases hl : copyErrors walkErr tasks with _ | ⟨e, es⟩
    · exact absurd hl hne
    · exact ⟨e, by simp [copyDirectory, hl]⟩
  · intro walkErr tasks t ht hnone
    rw [copyDirectory]
    exact List.mem_filterMap.mpr ⟨t, ht, by simp [hnone]⟩

/-- Witness for C6: a concrete run with one successful and one failing
copy returns the wrapped error. -/
theorem copyDirectory_error_aggregation_witness :
    ∃ e, (copyDirectory none [⟨strL "/d/a", none⟩, ⟨strL "/d/b", some (strL "boom")⟩]).2 =
      .error (strL "failed to copy directory: " ++ e) :=
  copyDirectory_error_aggregation.2.1 none _ (Or.inr ⟨⟨strL "/d/b", some (strL "boom")⟩, by decide, by decide⟩)

/-- C4 counterexample (to the claim as stated, on the spec-modelled
`GetPinnedURL`): with latest commit `main` and input locator
`https://test-url.git?ref=main` (whose `ref` parameter is `main`), the
pinned locator `git::test-url.git?ref=main` does contain the ref that
was present in the input locator. -/
theorem getPinnedURL_original_ref_retained :
    GetPinnedURLS "main" "https://test-url.git?ref=main" = .ok "git::test-url.git?ref=main" ∧
    getQ (parseQueryGo (strL "ref=main")) (strL "ref") = strL "main" ∧
    containsSub (strL "git::test-url.git?ref=main") (strL "main") = true := by
  decide

/-- C4 amended: with an empty latest commit `GetPinnedURL` fails with
exactly "latest commit not set" (for every locator); with a non-empty
commit and non-empty locator it returns
`git::<body>?ref=<commit>` where the body contains no `?` — so the
input's entire query, including its `ref` parameter, is discarded and
the only ref in the output is the commit (the original ref can still
occur as a substring, e.g. when it coincides with the commit). -/
theorem getPinnedURL_amended :
    (∀ url : Str, GetPinnedURL [] url = .error (strL "latest commit not set")) ∧
    (∀ commit url : Str, commit ≠ [] → url ≠ [] →
      GetPinnedURL commit url =
        .ok (strL "git::" ++ pinnedBody url ++ strL "?ref=" ++ commit) ∧
      containsChar (pinnedBody url) '?' = false) := by
  constructor
  · intro url
    rfl
  · intro commit url hc hu
    constructor
    · rw [GetPinnedURL, if_neg hc, if_neg hu]
    · exact containsChar_cutChar_fst '?' _

/-- Witness for C4 amended, at the test inputs of `git_test.go`. -/
theorem getPinnedURL_amended_witness :
    GetPinnedURL [] (strL "git://example.com/org/repo.git") =
      .error (strL "latest commit not set") ∧
    (GetPinnedURL (strL "def456") (strL "git::https://test-url.git?ref=abc1234") =
        .ok (strL "git::" ++ pinnedBody (strL "git::https://test-url.git?ref=abc1234") ++
          strL "?ref=" ++ strL "def456") ∧
      containsChar (pinnedBody (strL "git::https://test-url.git?ref=abc1234")) '?' = false) :=
  ⟨getPinnedURL_amended.1 _, getPinnedURL_amended.2 _ _ (by decide) (by decide)⟩

/-- C7 counterexample: for `git::github.com/org/repo` the current
`processUrl` returns cloneURL `file://github.com/org/repo.git`, which
does not begin with `https://github.com/`. -/
theorem processUrl_bare_shorthand_file :
    processUrlS none "git::github.com/org/repo" =
      .ok ("file://github.com/org/repo.git", "", "", "") ∧
    hasPfx (strL "https://github.com/") (strL "file://github.com/org/repo.git") = false := by
  decide

/-- C7 amended: in the current `processUrl` the `https://` prepend runs
BEFORE the `::` strip, so for `git::github.com/org/repo` the prepended
scheme is discarded together with the `git::` prefix
(`strings.Split(…, "::")[1]` of the prepended string is the bare
remainder) and the cloneURL is `file://github.com/org/repo.git`; the
alternate historical implementation strips first and then prepends,
yielding `https://github.com/org/repo.git`. -/
theorem processUrl_prepend_then_strip :
    processUrlS none "git::github.com/org/repo" =
      .ok ("file://github.com/org/repo.git", "", "", "") ∧
    (splitOnGo (strL "https://git::github.com/org/repo") (strL "::")).getD 1 [] =
      strL "github.com/org/repo" ∧
    GitAlt.processUrlS none "git::github.com/org/repo" =
      .ok ("https://github.com/org/repo.git", "", "", "") := by
  decide

/-- C9 counterexample: `processUrl` succeeds on
`git@example.com:org/repo` with cloneURL
`ssh://git@example.com/org/repo.git` and empty ref/subdirectory/depth,
but re-running it on that cloneURL fails ("unsupported source
protocol: ssh"), so re-running does not return the cloneURL unchanged. -/
theorem processUrl_ssh_output_not_reprocessable :
    processUrlS none "git@example.com:org/repo" =
      .ok ("ssh://git@example.com/org/repo.git", "", "", "") ∧
    processUrlS none "ssh://git@example.com/org/repo.git" =
      .error "failed to classify URI: unsupported source protocol: ssh" := by
  decide

/-- C3 counterexample: `processUrl` succeeds on
`https://h.com/a/b?foo=1` (a query parameter other than `ref`/`depth`
survives), and the returned cloneURL `https://h.com/a/b.git?foo=1`
does not end in `.git`. -/
theorem processUrl_residual_query_breaks_git_suffix :
    processUrlS none "https://h.com/a/b?foo=1" =
      .ok ("https://h.com/a/b.git?foo=1", "", "", "") ∧
    endsWithL (strL "https://h.com/a/b.git?foo=1") (strL ".git") = false := by
  decide

/-- C10: `processUrl` extracts the `ref` key before the `depth` key
into one shared subdirectory variable, so when both values contain
`//` the subdirectory from the depth value overwrites the one from the
ref value; each extraction deletes its key from the rebuilt query
whether or not the value contained `//`; concretely,
`git::https://example.com/org/repo.git?ref=main//sub1&depth=2//sub2`
yields ref `main`, depth `2`, subdirectory `sub2`, and a cloneURL with
no residual query. -/
theorem extract_ref_then_depth_precedence :
    (∀ (q : Values) (key sub : Str),
      hasKeyQ (extractSubdirFromQuery q key sub).2.1 key = false) ∧
    (∀ (q : Values) (sub0 : Str),
      containsSub (getQ q (strL "ref")) (strL "//") = true →
      containsSub (getQ q (strL "depth")) (strL "//") = true →
      (extractSubdirFromQuery (extractSubdirFromQuery q (strL "ref") sub0).2.1
          (strL "depth") (extractSubdirFromQuery q (strL "ref") sub0).2.2).2.2 =
        (splitN2 (getQ q (strL "depth")) (strL "//")).2) ∧
    processUrlS none "git::https://example.com/org/repo.git?ref=main//sub1&depth=2//sub2" =
      .ok ("https://example.com/org/repo.git", "main", "sub2", "2") := by
  refine ⟨?_, ?_, by decide⟩
  · intro q key sub
    by_cases hc : containsSub (getQ q key) (strL "//") = true <;>
      simp [extractSubdirFromQuery, hc, hasKeyQ_delQ]
  · intro q sub0 h1 h2
    have hdepth : getQ (delQ q (strL "ref")) (strL "depth") = getQ q (strL "depth") :=
      getQ_delQ_ne q (strL "ref") (strL "depth") (by decide)
    simp [extractSubdirFromQuery, h1, hdepth, h2]

/-- Witness for C10 at a concrete query. -/
theorem extract_ref_then_depth_precedence_witness :
    (extractSubdirFromQuery
        (extractSubdirFromQuery [(strL "ref", strL "a//s1"), (strL "depth", strL "2//s2")]
          (strL "ref") []).2.1
        (strL "depth")
        (extractSubdirFromQuery [(strL "ref", strL "a//s1"), (strL "depth", strL "2//s2")]
          (strL "ref") []).2.2).2.2 =
      (splitN2 (getQ [(strL "ref", strL "a//s1"), (strL "depth", strL "2//s2")]
        (strL "depth")) (strL "//")).2 :=
  extract_ref_then_depth_precedence.2.1 _ [] (by decide) (by decide)

/-- C8: every input matching the file-path shape (leading `./`, `../`,
`/`, a drive letter, `~/`, or `file://`) is classified as File with no
error, unless the tilde-expanded input ends in `.git`, in which case
it is Git; in particular `/home/u/file.git` is Git and
`/home/u/file.txt` is File. -/
theorem classify_filePath_git_override :
    (∀ (home : Option Str) (s : Str), filePathMatch s = true →
      ClassifyURI home s =
        (if endsWithL (ExpandTilde home s) (strL ".git") = true then (URIType.GitURI, none)
         else (URIType.FileURI, none))) ∧
    ClassifyURIS none "/home/u/file.git" = (URIType.GitURI, none) ∧
    ClassifyURIS none "/home/u/file.txt" = (URIType.FileURI, none) := by
  refine ⟨?_, by decide, by decide⟩
  intro home s h
  rw [filePathMatch.eq_def] at h
  split at h
  · simp [ClassifyURI, hasPfx, strL, filePathMatch]
  · simp [ClassifyURI, hasPfx, strL, filePathMatch]
  · simp [ClassifyURI, hasPfx, strL, filePathMatch]
  · simp [ClassifyURI, hasPfx, strL, filePathMatch, h]
  · simp [ClassifyURI, hasPfx, strL, filePathMatch]
  · rw [show strL "file://" = ['f', 'i', 'l', 'e', ':', '/', '/'] from rfl] at h
    rw [hasPfx_cons] at h
    obtain ⟨t1, rfl, h⟩ := h
    rw [hasPfx_cons] at h
    obtain ⟨t2, rfl, h⟩ := h
    rw [hasPfx_cons] at h
    obtain ⟨t3, rfl, h⟩ := h
    rw [hasPfx_cons] at h
    obtain ⟨t4, rfl, h⟩ := h
    rw [hasPfx_cons] at h
    obtain ⟨t5, rfl, h⟩ := h
    rw [hasPfx_cons] at h
    obtain ⟨t6, rfl, h⟩ := h
    rw [hasPfx_cons] at h
    obtain ⟨t7, rfl, h⟩ := h
    simp [ClassifyURI, hasPfx, strL, filePathMatch]

/-- Witness for C8 at a `./`-shaped input. -/
theorem classify_filePath_git_override_witness :
    ClassifyURI none (strL "./x") =
      (if endsWithL (ExpandTilde none (strL "./x")) (strL ".git") = true then (URIType.GitURI, none)
       else (URIType.FileURI, none)) :=
  classify_filePath_git_override.1 none (strL "./x") (by decide)

theorem endsWith_ensure (p s : Str) :
    endsWithL (if endsWithL p s = true then p else p ++ s) s = true := by
  by_cases h : endsWithL p s = true
  · rw [if_pos h]
    exact h
  · rw [if_neg h]
    exact endsWith_append_self p s

theorem processQueryAndPath_facts (u : GoURL) :
    endsWithL (processQueryAndPath u).1.path (strL ".git") = true ∧
    (processQueryAndPath u).1.scheme = u.scheme := by
  unfold processQueryAndPath
  dsimp only
  exact ⟨endsWith_ensure _ _, rfl⟩

/-- C3 amended: for every input on which `processUrl` succeeds, the
path component of the returned URL ends in `.git` and the URL carries
a non-empty scheme, so the rendered cloneURL begins with
`<scheme>:`; the rendered string itself need not end in `.git` when
residual query parameters or fragments follow the path (see the C3
counterexample). -/
theorem processUrl_scheme_and_git_suffix :
    ∀ (home : Option Str) (raw : Str) (u : GoURL) (ref sub dep : Str),
      processUrlCore home raw = .ok (u, ref, sub, dep) →
      endsWithL u.path (strL ".git") = true ∧
      u.scheme ≠ [] ∧
      processUrl home raw = .ok (goURLString u, ref, sub, dep) ∧
      hasPfx (u.scheme ++ [':']) (goURLString u) = true := by
  intro home raw u ref sub dep h
  have hrun : processUrl home raw = .ok (goURLString u, ref, sub, dep) := by
    rw [processUrl, h]
  unfold processUrlCore at h
  rcases hcl : ClassifyURI home raw with ⟨t, oe⟩
  rw [hcl] at h
  rcases oe with _ | e
  · dsimp only at h
    split at h
    · simp at h
    · rename_i v hv
      injection h with h'
      have hu1 : (processQueryAndPath v).1 = u := by rw [h']
      obtain ⟨hpath, hscheme⟩ := processQueryAndPath_facts v
      rw [hu1] at hpath hscheme
      have hsch := urlParse_goURLString_scheme _ (gitUrlsParse_scheme_mem _) v hv
      have hmem : u.scheme ∈ gitTransports := by
        rw [hscheme, hsch]
        exact gitUrlsParse_scheme_mem _
      have hne : u.scheme ≠ [] := (transports_facts u.scheme hmem).1
      refine ⟨hpath, hne, hrun, ?_⟩
      rw [goURLString_of_scheme u hne]
      have hsp : u.scheme ++ ':' :: goURLBody u = (u.scheme ++ [':']) ++ goURLBody u := by
        simp
      rw [hsp]
      exact hasPfx_append_self _ _
  · simp at h

/-- Witness for C3 amended, at `git::https://example.com/org/repo.git`. -/
theorem processUrl_scheme_and_git_suffix_witness :
    endsWithL (GoURL.path
      { scheme := strL "https", opq := [], user := none, host := strL "example.com",
        path := strL "/org/repo.git", forceQuery := false, rawQuery := [],
        fragment := [] }) (strL ".git") = true ∧
    GoURL.scheme
      { scheme := strL "https", opq := [], user := none, host := strL "example.com",
        path := strL "/org/repo.git", forceQuery := false, rawQuery := [],
        fragment := [] } ≠ ([] : Str) ∧
    processUrl none (strL "git::https://example.com/org/repo.git") =
      .ok (goURLString
        { scheme := strL "https", opq := [], user := none, host := strL "example.com",
          path := strL "/org/repo.git", forceQuery := false, rawQuery := [],
          fragment := [] }, [], [], []) ∧
    hasPfx (strL "https" ++ [':'])
      (goURLString
        { scheme := strL "https", opq := [], user := none, host := strL "example.com",
          path := strL "/org/repo.git", forceQuery := false, rawQuery := [],
          fragment := [] }) = true :=
  processUrl_scheme_and_git_suffix none (strL "git::https://example.com/org/repo.git")
    _ [] [] [] (by decide)

theorem containsChar_eq_false (l : Str) (c : Char) (h : ∀ d ∈ l, d ≠ c) :
    containsChar l c = false := by
  rw [Bool.eq_false_iff]
  intro hc
  rw [containsChar, List.any_eq_true] at hc
  obtain ⟨d, hd, he⟩ := hc
  exact h d hd (by simpa using he)






theorem httpsCloneURL_cons (A B C : Str) :
    httpsCloneURL A B C =
      'h' :: 't' :: 't' :: 'p' :: 's' :: ':' :: '/' :: '/' ::
        (A ++ '/' :: (B ++ '/' :: (C ++ ['.', 'g', 'i', 't']))) := by
  simp only [httpsCloneURL, List.append_assoc, strL]
  rfl

theorem httpsCloneURL_char_class (A B C : Str) (hA : A.all isWordDotDash = true)
    (hB : B.all isWordDotDash = true) (hC : C.all isWordDotDash = true) :
    ∀ d ∈ httpsCloneURL A B C, isWordDotDash d = true ∨ d = ':' ∨ d = '/' := by
  have hwordA := (List.all_eq_true).mp hA
  have hwordB := (List.all_eq_true).mp hB
  have hwordC := (List.all_eq_true).mp hC
  rw [httpsCloneURL_cons]
  intro d hd
  simp only [List.mem_cons, List.mem_append] at hd
  rcases hd with rfl | rfl | rfl | rfl | rfl | rfl | rfl | rfl | hd
  · left; decide
  · left; decide
  · left; decide
  · left; decide
  · left; decide
  · right; left; rfl
  · right; right; rfl
  · right; right; rfl
  · rcases hd with hdA | rfl | hdB | rfl | hdC | rfl | rfl | rfl | rfl | hnil
    · exact Or.inl (hwordA d hdA)
    · right; right; rfl
    · exact Or.inl (hwordB d hdB)
    · right; right; rfl
    · exact Or.inl (hwordC d hdC)
    · left; decide
    · left; decide
    · left; decide
    · left; decide
    · cases hnil

theorem httpsCloneURL_no_char (A B C : Str) (hA : A.all isWordDotDash = true)
    (hB : B.all isWordDotDash = true) (hC : C.all isWordDotDash = true)
    (c : Char) (hc : isWordDotDash c = false) (hc2 : c ≠ ':') (hc3 : c ≠ '/') :
    ∀ d ∈ httpsCloneURL A B C, d ≠ c := by
  intro d hd
  rcases httpsCloneURL_char_class A B C hA hB hC d hd with hw | rfl | rfl
  · intro he
    rw [he, hc] at hw
    cases hw
  · exact Ne.symm hc2
  · exact Ne.symm hc3

theorem tailT_char_class (A B C : Str) (hA : A.all isWordDotDash = true)
    (hB : B.all isWordDotDash = true) (hC : C.all isWordDotDash = true) :
    ∀ d ∈ (A ++ '/' :: (B ++ '/' :: (C ++ (['.', 'g', 'i', 't'] : Str)))),
      isWordDotDash d = true ∨ d = '/' := by
  have hwordA := (List.all_eq_true).mp hA
  have hwordB := (List.all_eq_true).mp hB
  have hwordC := (List.all_eq_true).mp hC
  intro d hd
  simp only [List.mem_cons, List.mem_append] at hd
  rcases hd with hdA | rfl | hdB | rfl | hdC | rfl | rfl | rfl | rfl | hnil
  · exact Or.inl (hwordA d hdA)
  · right; rfl
  · exact Or.inl (hwordB d hdB)
  · right; rfl
  · exact Or.inl (hwordC d hdC)
  · left; decide
  · left; decide
  · left; decide
  · left; decide
  · cases hnil

theorem tailT_no_char (A B C : Str) (hA : A.all isWordDotDash = true)
    (hB : B.all isWordDotDash = true) (hC : C.all isWordDotDash = true)
    (c : Char) (hc : isWordDotDash c = false) (hc3 : c ≠ '/') :
    ∀ d ∈ (A ++ '/' :: (B ++ '/' :: (C ++ (['.', 'g', 'i', 't'] : Str)))), d ≠ c := by
  intro d hd
  rcases tailT_char_class A B C hA hB hC d hd with hw | rfl
  · intro he
    rw [he, hc] at hw
    cases hw
  · exact Ne.symm hc3

theorem urlParse_httpsCloneURL (A B C : Str) (hA0 : A ≠ []) (hA : A.all isWordDotDash = true)
    (hB : B.all isWordDotDash = true) (hC : C.all isWordDotDash = true) :
    urlParse (httpsCloneURL A B C) =
      .ok { scheme := strL "https", opq := [], user := none, host := A,
            path := '/' :: (B ++ '/' :: (C ++ ['.', 'g', 'i', 't'])),
            forceQuery := false, rawQuery := [], fragment := [] } := by
  have hAs : ∀ d ∈ A, d ≠ '/' := all_wordDotDash_ne A hA '/' (by tauto)
  have hnohash : ∀ d ∈ httpsCloneURL A B C, d ≠ '#' :=
    httpsCloneURL_no_char A B C hA hB hC '#' (by decide) (by decide) (by decide)
  have htail_noq : ∀ d ∈ (A ++ '/' :: (B ++ '/' :: (C ++ (['.', 'g', 'i', 't'] : Str)))), d ≠ '?' :=
    tailT_no_char A B C hA hB hC '?' (by decide) (by decide)
  have hrest_noq : ∀ d ∈ ('/' :: '/' :: (A ++ '/' :: (B ++ '/' :: (C ++ (['.', 'g', 'i', 't'] : Str))))), d ≠ '?' := by
    intro d hd
    rcases List.mem_cons.mp hd with rfl | hd2
    · decide
    · rcases List.mem_cons.mp hd2 with rfl | hd3
      · decide
      · exact htail_noq d hd3
  rw [urlParse]
  rw [cutChar_of_not_mem '#' _ hnohash]
  dsimp only
  have hform : httpsCloneURL A B C =
      strL "https" ++ ':' :: ('/' :: '/' :: (A ++ '/' :: (B ++ '/' :: (C ++ ['.', 'g', 'i', 't'])))) := by
    rw [httpsCloneURL_cons]
    rfl
  rw [hform, getScheme_transport (strL "https") (by decide) _]
  dsimp only [Option.getD]
  have hlow : toLowerL (strL "https") = strL "https" := by decide
  rw [hlow]
  rw [urlParseAfterScheme]
  have hsq : splitQueryGo ('/' :: '/' :: (A ++ '/' :: (B ++ '/' :: (C ++ ['.', 'g', 'i', 't'])))) =
      (('/' :: '/' :: (A ++ '/' :: (B ++ '/' :: (C ++ ['.', 'g', 'i', 't'])))), [], false) := by
    rw [splitQueryGo]
    rw [cutChar_of_not_mem '?' _ hrest_noq]
    have hend : endsWithL ('/' :: '/' :: (A ++ '/' :: (B ++ '/' :: (C ++ ['.', 'g', 'i', 't'])))) (strL "?") = false := by
      rw [Bool.eq_false_iff]
      intro he
      rw [endsWithL] at he
      rw [show (strL "?").reverse = ['?'] from rfl] at he
      rw [hasPfx_cons] at he
      obtain ⟨t, ht, _⟩ := he
      have hmem : '?' ∈ ('/' :: '/' :: (A ++ '/' :: (B ++ '/' :: (C ++ (['.', 'g', 'i', 't'] : Str))))) := by
        have hrev : '?' ∈ ('/' :: '/' :: (A ++ '/' :: (B ++ '/' :: (C ++ (['.', 'g', 'i', 't'] : Str))))).reverse := by
          rw [ht]
          exact List.mem_cons_self _ _
        rw [List.mem_reverse] at hrev
        exact hrev
      exact hrest_noq '?' hmem rfl
    rw [hend]
    rfl
  rw [hsq]
  dsimp only
  have hpfx1 : hasPfx (strL "/") ('/' :: '/' :: (A ++ '/' :: (B ++ '/' :: (C ++ ['.', 'g', 'i', 't'])))) = true := by
    simp [hasPfx, strL]
  have hcond : ((decide (strL "https" ≠ []) ||
      !hasPfx (strL "///") ('/' :: '/' :: (A ++ '/' :: (B ++ '/' :: (C ++ ['.', 'g', 'i', 't']))))) &&
      hasPfx (strL "//") ('/' :: '/' :: (A ++ '/' :: (B ++ '/' :: (C ++ ['.', 'g', 'i', 't']))))) = true := by
    have hpfx2 : hasPfx (strL "//") ('/' :: '/' :: (A ++ '/' :: (B ++ '/' :: (C ++ ['.', 'g', 'i', 't'])))) = true := by
      simp [hasPfx, strL]
    rw [hpfx2, Bool.and_true, Bool.or_eq_true]
    left
    decide
  rw [if_pos hpfx1, if_pos hcond]
  have hdrop2 : ('/' :: '/' :: (A ++ '/' :: (B ++ '/' :: (C ++ (['.', 'g', 'i', 't'] : Str))))).drop 2 =
      A ++ '/' :: (B ++ '/' :: (C ++ ['.', 'g', 'i', 't'])) := rfl
  have hsa : splitAuthorityGo (A ++ '/' :: (B ++ '/' :: (C ++ ['.', 'g', 'i', 't']))) =
      (A, '/' :: (B ++ '/' :: (C ++ ['.', 'g', 'i', 't']))) := by
    rw [splitAuthorityGo, firstCut_append_sep _ _ hAs]
  rw [hdrop2, hsa]
  dsimp only
  have hAat : ∀ d ∈ A, d ≠ '@' := all_wordDotDash_ne A hA '@' (by tauto)
  have hAcolon : ∀ d ∈ A, d ≠ ':' := all_wordDotDash_ne A hA ':' (by tauto)
  have hAbr : ∀ d ∈ A, d ≠ '[' := all_wordDotDash_ne A hA '[' (by tauto)
  have hpa : parseAuthorityGo A = .ok (none, A) := by
    rw [parseAuthorityGo]
    rw [containsChar_eq_false A '@' hAat]
    rw [if_neg (by decide : ¬(false = true))]
    have hhost : parseHostGo A = .ok A := by
      rw [parseHostGo]
      have hbr : hasPfx (strL "[") A = false := by
        rcases A with _ | ⟨a, A2⟩
        · rfl
        · have ha : a ≠ '[' := hAbr a (List.mem_cons_self a A2)
          simp [hasPfx, strL, Ne.symm ha]
      rw [hbr]
      rw [if_neg (by decide : ¬(false = true))]
      rw [containsChar_eq_false A ':' hAcolon]
      rfl
    rw [hhost]
  rw [hpa]

theorem gitUrlsParse_httpsCloneURL (A B C : Str) (hA0 : A ≠ []) (hA : A.all isWordDotDash = true)
    (hB : B.all isWordDotDash = true) (hC : C.all isWordDotDash = true) :
    gitUrlsParse (httpsCloneURL A B C) =
      { scheme := strL "https", opq := [], user := none, host := A,
        path := '/' :: (B ++ '/' :: (C ++ ['.', 'g', 'i', 't'])),
        forceQuery := false, rawQuery := [], fragment := [] } := by
  rw [gitUrlsParse, parseTransport, urlParse_httpsCloneURL A B C hA0 hA hB hC]
  rfl

theorem goURLString_httpsRecord (A B C : Str) :
    goURLString
      { scheme := strL "https", opq := [], user := none, host := A,
        path := '/' :: (B ++ '/' :: (C ++ ['.', 'g', 'i', 't'])),
        forceQuery := false, rawQuery := [], fragment := [] } =
      httpsCloneURL A B C := by
  rw [goURLString, goURLBody, goURLTail]
  rw [httpsCloneURL_cons]
  simp [hasPfx, strL]

theorem processQueryAndPath_httpsRecord (A B C : Str) (hB0 : B ≠ [])
    (hB : B.all isWordDotDash = true) (hC0 : C ≠ []) (hC : C.all isWordDotDash = true) :
    processQueryAndPath
      { scheme := strL "https", opq := [], user := none, host := A,
        path := '/' :: (B ++ '/' :: (C ++ ['.', 'g', 'i', 't'])),
        forceQuery := false, rawQuery := [], fragment := [] } =
      ({ scheme := strL "https", opq := [], user := none, host := A,
         path := '/' :: (B ++ '/' :: (C ++ ['.', 'g', 'i', 't'])),
         forceQuery := false, rawQuery := [], fragment := [] }, [], [], []) := by
  have hBs : ∀ d ∈ B, d ≠ '/' := all_wordDotDash_ne B hB '/' (by tauto)
  have hCs : ∀ d ∈ C, d ≠ '/' := all_wordDotDash_ne C hC '/' (by tauto)
  obtain ⟨b, B', rfl⟩ : ∃ b B', B = b :: B' := by
    rcases B with _ | ⟨b, B'⟩
    · exact absurd rfl hB0
    · exact ⟨b, B', rfl⟩
  obtain ⟨c, C', rfl⟩ : ∃ c C', C = c :: C' := by
    rcases C with _ | ⟨c, C'⟩
    · exact absurd rfl hC0
    · exact ⟨c, C', rfl⟩
  have hb : b ≠ '/' := hBs b (List.mem_cons_self _ _)
  have hc : c ≠ '/' := hCs c (List.mem_cons_self _ _)
  have hnods : containsSub ('/' :: (b :: B' ++ '/' :: (c :: C' ++ ['.', 'g', 'i', 't'])))
      (strL "//") = false := by
    rw [containsSub_cons]
    rw [containsSub_append_of_no_first_char (b :: B') _ _ '/' rfl hBs]
    rw [containsSub_cons]
    rw [containsSub_append_of_no_first_char (c :: C') _ _ '/' rfl hCs]
    have hrest : containsSub (['.', 'g', 'i', 't'] : Str) (strL "//") = false := by decide
    rw [hrest]
    simp [hasPfx, strL, Ne.symm hb, Ne.symm hc]
  have hends : endsWithL ('/' :: (b :: B' ++ '/' :: (c :: C' ++ ['.', 'g', 'i', 't'])))
      (strL ".git") = true := by
    have hsplit : ('/' :: (b :: B' ++ '/' :: (c :: C' ++ (['.', 'g', 'i', 't'] : Str)))) =
        ('/' :: (b :: B' ++ '/' :: c :: C')) ++ strL ".git" := by
      simp [strL]
    rw [hsplit]
    exact endsWith_append_self _ _
  rw [processQueryAndPath]
  dsimp only
  rw [hnods]
  simp only [Bool.false_eq_true, if_false]
  rw [hends]
  simp only [if_true]
  refine Prod.ext ?_ ?_
  · rfl
  · show Prod.mk _ _ = Prod.mk _ _
    decide

theorem classify_httpsCloneURL (A B C : Str) (hA0 : A ≠ []) (hA : A.all isWordDotDash = true)
    (hB0 : B ≠ []) (hB : B.all isWordDotDash = true)
    (hC0 : C ≠ []) (hC : C.all isWordDotDash = true) :
    ClassifyURI none (httpsCloneURL A B C) = (URIType.GitURI, none) := by
  have hAs : ∀ d ∈ A, d ≠ '/' := all_wordDotDash_ne A hA '/' (by tauto)
  have hBs : ∀ d ∈ B, d ≠ '/' := all_wordDotDash_ne B hB '/' (by tauto)
  have hCGs : ∀ d ∈ C ++ (['.', 'g', 'i', 't'] : Str), d ≠ '/' := by
    intro d hd
    rcases List.mem_append.mp hd with h1 | h2
    · exact all_wordDotDash_ne C hC '/' (by tauto) d h1
    · have hg : ∀ x ∈ (['.', 'g', 'i', 't'] : Str), x ≠ '/' := by decide
      exact hg d h2
  have hsplit : splitOnGo (A ++ '/' :: (B ++ '/' :: (C ++ ['.', 'g', 'i', 't']))) (strL "/") =
      [A, B, C ++ ['.', 'g', 'i', 't']] := splitOnGo_three A B _ hAs hBs hCGs
  have hsegs : segsW (A ++ '/' :: (B ++ '/' :: (C ++ ['.', 'g', 'i', 't']))) 3 = true := by
    rw [segsW, hsplit]
    have hg : List.all (['.', 'g', 'i', 't'] : Str) isWordDotDash = true := by decide
    simp [List.all_append, hA, hB, hC, hA0, hB0, hC0, hg]
  have hgit : gitURIMatch ('h' :: 't' :: 't' :: 'p' :: 's' :: ':' :: '/' :: '/' ::
      (A ++ '/' :: (B ++ '/' :: (C ++ ['.', 'g', 'i', 't'])))) = true := by
    rw [gitURIMatch]
    simp [hasPfx, strL, hsegs]
  rw [ClassifyURI, httpsCloneURL_cons]
  simp [hasPfx, strL, filePathMatch, hgit]

theorem processUrlCore_httpsCloneURL (A B C : Str) (hA0 : A ≠ []) (hA : A.all isWordDotDash = true)
    (hB0 : B ≠ []) (hB : B.all isWordDotDash = true)
    (hC0 : C ≠ []) (hC : C.all isWordDotDash = true) :
    processUrlCore none (httpsCloneURL A B C) =
      .ok ({ scheme := strL "https", opq := [], user := none, host := A,
             path := '/' :: (B ++ '/' :: (C ++ ['.', 'g', 'i', 't'])),
             forceQuery := false, rawQuery := [], fragment := [] }, [], [], []) := by
  have hscolon : containsSub (httpsCloneURL A B C) (strL "://") = true := by
    rw [httpsCloneURL_cons]
    simp [containsSub, hasPfx, strL]
  have hdcolon : containsSub (httpsCloneURL A B C) (strL "::") = false := by
    rw [httpsCloneURL_cons]
    have htail : containsSub (A ++ '/' :: (B ++ '/' :: (C ++ ['.', 'g', 'i', 't'])))
        ([':', ':'] : Str) = false :=
      containsSub_of_no_first_char _ _ ':' rfl
        (tailT_no_char A B C hA hB hC ':' (by decide) (by decide))
    simp [containsSub, hasPfx, strL, htail]
  rw [processUrlCore, classify_httpsCloneURL A B C hA0 hA hB0 hB hC0 hC]
  dsimp only
  rw [hscolon]
  simp only [Bool.not_true, Bool.and_false, Bool.false_eq_true, if_false]
  rw [hdcolon]
  simp only [Bool.false_eq_true, if_false]
  rw [gitUrlsParse_httpsCloneURL A B C hA0 hA hB hC]
  rw [goURLString_httpsRecord A B C]
  rw [urlParse_httpsCloneURL A B C hA0 hA hB hC]
  dsimp only
  rw [processQueryAndPath_httpsRecord A B C hB0 hB hC0 hC]

theorem processUrl_httpsCloneURL_identity (A B C : Str)
    (hA0 : A ≠ []) (hA : A.all isWordDotDash = true)
    (hB0 : B ≠ []) (hB : B.all isWordDotDash = true)
    (hC0 : C ≠ []) (hC : C.all isWordDotDash = true) :
    processUrl none (httpsCloneURL A B C) = .ok (httpsCloneURL A B C, [], [], []) := by
  rw [processUrl, processUrlCore_httpsCloneURL A B C hA0 hA hB0 hB hC0 hC]
  dsimp only
  rw [goURLString_httpsRecord A B C]

/-- C9 amended: re-running `processUrl` on its own cloneURL output
holds for outputs the classifier accepts — in particular for every
cloneURL of the canonical `https://<host>/<org>/<repo>.git` shape
(components non-empty over `[\w.\-]`), the second run succeeds and
returns the same cloneURL with ref, subdirectory and depth still
empty.  It fails for `ssh://` cloneURLs (see the C9 counterexample),
whose scheme the classifier rejects. -/
theorem processUrl_https_idempotent :
    ∀ (x : Str) (A B C : Str),
      A ≠ [] → A.all isWordDotDash = true →
      B ≠ [] → B.all isWordDotDash = true →
      C ≠ [] → C.all isWordDotDash = true →
      processUrl none x = .ok (httpsCloneURL A B C, [], [], []) →
      processUrl none (httpsCloneURL A B C) = .ok (httpsCloneURL A B C, [], [], []) := by
  intro x A B C hA0 hA hB0 hB hC0 hC _
  exact processUrl_httpsCloneURL_identity A B C hA0 hA hB0 hB hC0 hC

/-- Witness for C9 amended: the round-trip example's cloneURL, produced
by `processUrl` from `git::https://example.com/org/repo.git`, is a
fixed point of the second run. -/
theorem processUrl_https_idempotent_witness :
    processUrl none (httpsCloneURL (strL "example.com") (strL "org") (strL "repo")) =
      .ok (httpsCloneURL (strL "example.com") (strL "org") (strL "repo"), [], [], []) :=
  processUrl_https_idempotent (strL "git::https://example.com/org/repo.git") _ _ _
    (by decide) (by decide) (by decide) (by decide) (by decide) (by decide)
    (by decide)
